import Mathlib

/-!
Verification of the wifinina-rs WiFiNINA SPI driver against its
natural-language specification.

The definitions below are a shallow embedding of the driver source:

* `src/src/commands.rs` — the protocol codec (`send_command`,
  `receive_response`, the `SendParam`/`RecvParam` descriptors);
* `src/src/commands/socket.rs` — the socket manager (`socket_read`,
  `socket_write`, `server_select`, `socket_open`);
* `src/src/commands/extras.rs` — `get_firmware_version`;
* `src/src/commands/wifi.rs` — `wifi_scan`;
* `src/src/util/timeout_iter.rs` — `TimeoutIter::next`.

Bytes are modelled as `Nat` (with `% 256` / `% 65536` where the Rust
code truncates machine integers), the SPI bus as a `List Nat` of the
bytes the chip clocks out, and fallible paths with `Except`.
-/

namespace WifiNina

/-- Send-parameter descriptors, from `SendParam` in `src/src/commands.rs`.
Words are `u16` values; `bytes` carries the payload the
`ExactSizeIterator` would yield. -/
inductive SendParam
  | byte (b : Nat)
  | word (w : Nat)
  | leword (w : Nat)
  | bytes (bs : List Nat)
deriving Repr, DecidableEq

/-- Big-endian byte pair of a `u16`, as Rust `(w as u16).to_be_bytes()`. -/
def u16_be (w : Nat) : List Nat := [w % 65536 / 256, w % 256]

/-- Little-endian byte pair of a `u16`, as Rust `(w as u16).to_le_bytes()`. -/
def u16_le (w : Nat) : List Nat := [w % 256, w % 65536 / 256]

/-- Length prefix written by the `write_len` closure in `send_command`:
two big-endian bytes when the parameter list uses 16-bit lengths,
otherwise a single byte (`len as u8`). -/
def len_header (use16 : Bool) (len : Nat) : List Nat :=
  if use16 then u16_be len else [len % 256]

/-- Bytes one parameter contributes to the frame: its length prefix
followed by its payload, from the `match p` in `send_command`. -/
def param_bytes (use16 : Bool) : SendParam → List Nat
  | .byte b => len_header use16 1 ++ [b % 256]
  | .word w => len_header use16 2 ++ u16_be w
  | .leword w => len_header use16 2 ++ u16_le w
  | .bytes bs => len_header use16 bs.length ++ bs

/-- Frame bytes before padding: START token `0xE0`, the command byte
with the reply flag masked out (`cmd_byte & !REPLY_FLAG`), the
parameter count (`params.len() as u8`), each parameter, then the END
token `0xEE`.  The source's `sent_len` counter equals the length of
this list: 3 header bytes, then per parameter the prefix size plus the
payload length, then 1 for END. -/
def send_command_core (cmd : Nat) (params : List SendParam) (use16 : Bool) : List Nat :=
  [0xE0, cmd % 128, params.length % 256]
    ++ (params.map (param_bytes use16)).flatten
    ++ [0xEE]

/-- Number of `0x00` padding bytes the `while sent_len % 4 != 0` loop
appends for a frame of `n` bytes. -/
def pad_len (n : Nat) : Nat := (4 - n % 4) % 4

/-- Every byte `send_command` (src/src/commands.rs:235) writes on the
bus: the frame, padded with `0x00` until the total is a multiple of 4. -/
def send_command (cmd : Nat) (params : List SendParam) (use16 : Bool) : List Nat :=
  let core := send_command_core cmd params use16
  core ++ List.replicate (pad_len core.length) 0

/-- Codec failure taxonomy, from `Error` in `src/src/lib.rs`.
`spiUnderrun` stands for an SPI transfer past the end of the modelled
chip trace (the `Error::Spi` arm). -/
inductive NinaError
  | responseTimeout
  | errorResponse
  | unexpectedResponse (expected got : Nat)
  | missingParam (idx : Nat)
  | unexpectedParam (count : Nat)
  | mismatchedParamSize (expected got : Nat)
  | spiUnderrun
deriving Repr, DecidableEq

/-- Reads one byte from the bus (`SpiExt::transfer_byte`): the chip
clocks out the next byte of its trace. -/
def transfer_byte : List Nat → Except NinaError (Nat × List Nat)
  | [] => .error .spiUnderrun
  | b :: rest => .ok (b, rest)

/-- Skips bytes until the START token `0xE0` arrives, failing on the
ERROR token `0xEF`, from `wait_for_response_start`
(src/src/commands.rs:203).  An exhausted trace stands for the chip
idling until the 100 ms timer expires (`Error::ResponseTimeout`). -/
def wait_for_response_start : List Nat → Except NinaError (List Nat)
  | [] => .error .responseTimeout
  | b :: rest =>
    if b = 0xE0 then .ok rest
    else if b = 0xEF then .error .errorResponse
    else wait_for_response_start rest

/-- Checks that the next byte equals the target, from `expect_byte`
(src/src/commands.rs:224). -/
def expect_byte (target : Nat) (bus : List Nat) : Except NinaError (List Nat) := do
  let (v, rest) ← transfer_byte bus
  if v = target then .ok rest else .error (.unexpectedResponse target v)

/-- Reads a parameter length from the bus — two big-endian bytes under
16-bit framing, one byte otherwise — and checks it against an expected
size, from the `read_len` closure in `receive_response`
(src/src/commands.rs:343). -/
def read_len (use16 : Bool) (expected : Option Nat) (bus : List Nat) :
    Except NinaError (Nat × List Nat) := do
  let (len, rest) ←
    if use16 then do
      let (b1, bus1) ← transfer_byte bus
      let (b2, bus2) ← transfer_byte bus1
      pure (b1 * 256 + b2, bus2)
    else
      transfer_byte bus
  match expected with
  | some e => if len = e then pure (len, rest) else .error (.mismatchedParamSize e len)
  | none => pure (len, rest)

/-- Reads a fixed number of bytes off the bus (a `for` loop of
`transfer_byte` calls in the source). -/
def read_bytes : Nat → List Nat → Except NinaError (List Nat × List Nat)
  | 0, bus => .ok ([], bus)
  | k + 1, bus => do
    let (b, bus1) ← transfer_byte bus
    let (bs, bus2) ← read_bytes k bus1
    .ok (b :: bs, bus2)

/-- Receive-slot descriptors, from `RecvParam` in `src/src/commands.rs`.
`byteArray` and `buffer` carry the length of the caller's slice. -/
inductive RecvParam
  | ack
  | byte
  | optionalByte
  | word
  | leword
  | float
  | byteArray (size : Nat)
  | buffer (cap : Nat)
deriving Repr, DecidableEq

/-- Values `receive_response` stores through the `RecvParam` references.
A skipped `OptionalByte` is `optionalVal none`, matching the `None` the
callers initialise their option with.  `floatVal` keeps the four raw
little-endian bytes rather than interpreting them. -/
inductive RecvVal
  | ackVal
  | byteVal (b : Nat)
  | optionalVal (b : Option Nat)
  | wordVal (w : Nat)
  | lewordVal (w : Nat)
  | floatVal (bs : List Nat)
  | arrayVal (bs : List Nat)
  | bufferVal (bs : List Nat) (len : Nat)
deriving Repr, DecidableEq

/-- Handles one receive slot, from the `match param_handler` arms of
`receive_response` (src/src/commands.rs:384).  For `buffer cap` it
stores `min incoming cap` bytes and then drains the `incoming - stored`
excess bytes off the bus. -/
def handle_recv_param (use16 : Bool) (p : RecvParam) (bus : List Nat) :
    Except NinaError (RecvVal × List Nat) :=
  match p with
  | .ack => do
    let (_, bus1) ← read_len use16 (some 1) bus
    let bus2 ← expect_byte 1 bus1
    .ok (.ackVal, bus2)
  | .byte => do
    let (_, bus1) ← read_len use16 (some 1) bus
    let (b, bus2) ← transfer_byte bus1
    .ok (.byteVal b, bus2)
  | .optionalByte => do
    let (_, bus1) ← read_len use16 (some 1) bus
    let (b, bus2) ← transfer_byte bus1
    .ok (.optionalVal (some b), bus2)
  | .word => do
    let (_, bus1) ← read_len use16 (some 2) bus
    let (b1, bus2) ← transfer_byte bus1
    let (b2, bus3) ← transfer_byte bus2
    .ok (.wordVal (b1 * 256 + b2), bus3)
  | .leword => do
    let (_, bus1) ← read_len use16 (some 2) bus
    let (b1, bus2) ← transfer_byte bus1
    let (b2, bus3) ← transfer_byte bus2
    .ok (.lewordVal (b2 * 256 + b1), bus3)
  | .float => do
    let (_, bus1) ← read_len use16 (some 4) bus
    let (bs, bus2) ← read_bytes 4 bus1
    .ok (.floatVal bs, bus2)
  | .byteArray size => do
    let (_, bus1) ← read_len use16 (some size) bus
    let (bs, bus2) ← read_bytes size bus1
    .ok (.arrayVal bs, bus2)
  | .buffer cap => do
    let (incoming, bus1) ← read_len use16 none bus
    let stored := min incoming cap
    let (bs, bus2) ← read_bytes stored bus1
    let (_, bus3) ← read_bytes (incoming - stored) bus2
    .ok (.bufferVal bs stored, bus3)

/-- Parameter loop of `receive_response` (src/src/commands.rs:371).
`param_count` is the count byte the chip sent and `param_idx` the
number of chip parameters consumed so far.  When the chip runs out of
parameters, remaining `OptionalByte` slots are skipped without
incrementing `param_idx`; any other slot fails `MissingParam`.  The
source's post-loop `param_count > param_idx` check surfaces here in the
`[]` case. -/
def recv_params (use16 : Bool) (param_count param_idx : Nat)
    (params : List RecvParam) (bus : List Nat) :
    Except NinaError (List RecvVal × Nat × List Nat) :=
  match params with
  | [] =>
    if param_idx < param_count then .error (.unexpectedParam param_count)
    else .ok ([], param_idx, bus)
  | p :: rest =>
    if param_idx = param_count then
      match p with
      | .optionalByte => do
        let (vals, result) ← recv_params use16 param_count param_idx rest bus
        .ok (.optionalVal none :: vals, result)
      | _ => .error (.missingParam param_idx)
    else do
      let (v, bus1) ← handle_recv_param use16 p bus
      let (vals, idx, bus2) ← recv_params use16 param_count (param_idx + 1) rest bus1
      .ok (v :: vals, idx, bus2)

/-- Full response parse, from `receive_response` (src/src/commands.rs:327):
wait for START, check the echoed command byte with the reply flag set
(`REPLY_FLAG | cmd_byte`, which for a command byte is `128 + cmd % 128`),
read the parameter-count byte, run the slot loop, then require END. -/
def receive_response (cmd : Nat) (use16 : Bool) (params : List RecvParam)
    (bus : List Nat) : Except NinaError (List RecvVal × List Nat) := do
  let bus1 ← wait_for_response_start bus
  let bus2 ← expect_byte (128 + cmd % 128) bus1
  let (param_count, bus3) ← transfer_byte bus2
  let (vals, _, bus4) ← recv_params use16 param_count 0 params bus3
  let bus5 ← expect_byte 0xEE bus4
  .ok (vals, bus5)

/-- Model of `get_firmware_version` (src/src/commands/extras.rs:82): a
10-byte zero-initialised buffer received through a single `Buffer`
slot; the result is the whole buffer (read bytes, then the untouched
zero tail) together with the filled length.  The second `.ok` arm is
unreachable for this one-slot parameter list. -/
def get_firmware_version (bus : List Nat) : Except NinaError (List Nat × Nat) :=
  match receive_response 0x37 false [.buffer 10] bus with
  | .ok ([.bufferVal stored len], _) => .ok (stored ++ List.replicate (10 - len) 0, len)
  | .ok _ => .error .spiUnderrun
  | .error e => .error e

/-- Chip reply to `GetFirmwareVersion` for firmware 1.7.4: one
parameter of length 6 holding the C string bytes `31 2E 37 2E 34 00`. -/
def firmware_reply : List Nat :=
  [0xE0, 0xB7, 0x01, 0x06, 0x31, 0x2E, 0x37, 0x2E, 0x34, 0x00, 0xEE]

/-- Outcome of one `timer.wait()` call on the count-down timer. -/
inductive TimerWait
  | ok
  | wouldBlock
  | err
deriving Repr, DecidableEq

/-- Observable behaviour of one `TimeoutIter::next` call: keep looping
(`Some(())`), end iteration (`None`), or crash. -/
inductive IterStep
  | yield
  | finished
  | panicked
deriving Repr, DecidableEq

/-- Model of `TimeoutIter::next` (src/src/util/timeout_iter.rs:19):
`WouldBlock` yields another loop iteration, `Ok` finishes the
iterator, and any other timer error hits the `panic!()` arm. -/
def timeout_iter_next : TimerWait → IterStep
  | .wouldBlock => .yield
  | .ok => .finished
  | .err => .panicked

/-- Result of `server_select` as observable by the caller. -/
inductive SelectResult
  | connected (handle : Nat)
  | wouldBlock
  | panicked
deriving Repr, DecidableEq

/-- Model of `server_select` (src/src/commands/socket.rs:278) applied
to the 16-bit little-endian word read from the `AvailableDataTcp`
reply: `255` maps to `WouldBlock`; otherwise the word goes through
`socket_num.try_into().unwrap()` into the `u8` socket number, which
panics for words above `255`. -/
def server_select (word : Nat) : SelectResult :=
  if word = 255 then .wouldBlock
  else if word < 256 then .connected word
  else .panicked

/-- Commands `socket_read` issues on the bus, with the parameters the
claims talk about. -/
inductive SockCmd
  | availableData (sock : Nat)
  | getClientState (sock : Nat)
  | getDatabuf (sock reqLen : Nat)
deriving Repr, DecidableEq

/-- Chip-side replies consumed by one `socket_read` call: the `u16`
little-endian word answering `AvailableDataTcp`, the status byte
answering `GetClientStateTcp` (0 is `SocketStatus::Closed`), and the
payload bytes answering `GetDatabufTcp` (whose reported length feeds
the `Buffer` slot). -/
structure ReadEnv where
  available : Nat
  status : Nat
  data : List Nat
deriving Repr, DecidableEq

/-- Result of `socket_read`: `Ok(usize)` or `nb::Error::WouldBlock`. -/
inductive ReadResult
  | ok (n : Nat)
  | wouldBlock
deriving Repr, DecidableEq

/-- Model of `socket_read` (src/src/commands/socket.rs:421) together
with the trace of commands it issues.  `bufLen % 65536` is the
`buf.len() as u16` truncation in `min(available, buf.len() as u16)`;
the returned count is the `Buffer` slot's `min(incoming, buf.len())`. -/
def socket_read (env : ReadEnv) (sock bufLen : Nat) : ReadResult × List SockCmd :=
  if env.available = 0 then
    if env.status = 0 then (.ok 0, [.availableData sock, .getClientState sock])
    else (.wouldBlock, [.availableData sock, .getClientState sock])
  else
    (.ok (min env.data.length bufLen),
      [.availableData sock, .getDatabuf sock (min env.available (bufLen % 65536))])

/-- SPI DMA chunk limit, from `MAX_WRITE_BYTES`
(src/src/commands/socket.rs:24). -/
def MAX_WRITE_BYTES : Nat := 4000

/-- Loop of `socket_write` (src/src/commands/socket.rs:315).  `reports`
is the oracle of little-endian counts the chip answers per
`SendDataTcp` frame, `iter_rem` the bytes the input iterator still
holds, `bytes_left` the `bytes_left` counter, `written` the
accumulated return value, and `frames` the payload lengths issued so
far (most recent first).  Each round takes `min iter_rem
MAX_WRITE_BYTES` bytes from the iterator; `fuel` bounds the number of
rounds (the Rust loop is unbounded), `none` meaning it did not finish
within `fuel` rounds or the report oracle ran dry. -/
def socket_write_loop (fuel : Nat) (reports : List Nat)
    (iter_rem bytes_left written : Nat) (frames : List Nat) :
    Option (List Nat × Nat) :=
  if bytes_left = 0 then some (frames.reverse, written)
  else
    match fuel, reports with
    | 0, _ => none
    | _, [] => none
    | f + 1, r :: rs =>
      let chunk := min iter_rem MAX_WRITE_BYTES
      socket_write_loop f rs (iter_rem - chunk) (bytes_left - r) (written + r)
        (chunk :: frames)

/-- Whole `socket_write` call on an input of `len` bytes with chip
report oracle `reports`; `len + 1` rounds of fuel suffice whenever
each report is positive. -/
def socket_write (reports : List Nat) (len : Nat) : Option (List Nat × Nat) :=
  socket_write_loop (len + 1) reports len len 0 []

/-- Chunk sizes `socket_write` takes off the iterator when the chip
accepts every chunk in full, with explicit fuel (`fuel = n` always
suffices since every chunk is nonempty). -/
def write_chunks_fuel : Nat → Nat → List Nat
  | 0, _ => []
  | fuel + 1, n =>
    if n = 0 then []
    else min n MAX_WRITE_BYTES :: write_chunks_fuel fuel (n - min n MAX_WRITE_BYTES)

/-- The ≤ 4000-byte chunking of an `n`-byte input. -/
def write_chunks (n : Nat) : List Nat := write_chunks_fuel n n

/-- Outcome of the connect poll in `socket_open`: `Established`
returned after a number of `GetClientStateTcp` polls, or
`SocketConnectionFailed` carrying the last status byte. -/
inductive ConnectPoll
  | established (iters : Nat)
  | failed (last : Nat)
deriving Repr, DecidableEq

/-- Poll loop of `socket_open` (src/src/commands/socket.rs:153):
up to 300 iterations; `statuses i` is the status byte the `i`-th
`GetClientStateTcp` read yields; `4` is `SocketStatus::Established`. -/
def socket_open_poll_aux : Nat → (Nat → Nat) → Nat → Nat → ConnectPoll
  | 0, _, _, last => .failed last
  | k + 1, statuses, i, _ =>
    if statuses i = 4 then .established (i + 1)
    else socket_open_poll_aux k statuses (i + 1) (statuses i)

/-- The full 300-iteration poll, starting from
`SocketStatus::UnknownStatus` (255). -/
def socket_open_poll (statuses : Nat → Nat) : ConnectPoll :=
  socket_open_poll_aux 300 statuses 0 255

/-- Default scan slot: `(0, [0; 255])` from `WifiScanResults::default`. -/
def scan_default_entry : Nat × List Nat := (0, List.replicate 255 0)

/-- One SSID read of the `wifi_scan` loop
(src/src/commands/wifi.rs:232): a length byte, then up to 255 stored
bytes, the rest drained off the bus; the entry records the stored
length and the 255-byte buffer (stored bytes over the zero
initialisation). -/
def read_ssid_entry (bus : List Nat) : Except NinaError ((Nat × List Nat) × List Nat) := do
  let (ssid_len, bus1) ← transfer_byte bus
  let stored := min ssid_len 255
  let (bs, bus2) ← read_bytes stored bus1
  let (_, bus3) ← read_bytes (ssid_len - stored) bus2
  .ok ((stored, bs ++ List.replicate (255 - stored) 0), bus3)

/-- The `for i in 0..min(ssids_count, 10)` loop of `wifi_scan`,
running `k` times and writing each entry at index `i` of the
10-element results array. -/
def wifi_scan_entries : Nat → List Nat → List (Nat × List Nat) → Nat →
    Except NinaError (List (Nat × List Nat) × List Nat)
  | 0, bus, entries, _ => .ok (entries, bus)
  | k + 1, bus, entries, i => do
    let (e, bus1) ← read_ssid_entry bus
    wifi_scan_entries k bus1 (entries.set i e) (i + 1)

/-- Model of `wifi_scan` (src/src/commands/wifi.rs:214): the open-coded
response reader — START, echoed command `0xA7`, the raw count byte
stored as `ssids_count`, then `min count 10` SSID entries into the
default-initialised array, then END.  Returns the raw count, the
entries, and the remaining bus. -/
def wifi_scan (bus : List Nat) :
    Except NinaError ((Nat × List (Nat × List Nat)) × List Nat) := do
  let bus1 ← wait_for_response_start bus
  let bus2 ← expect_byte (128 + 0x27 % 128) bus1
  let (ssids_count, bus3) ← transfer_byte bus2
  let (entries, bus4) ←
    wifi_scan_entries (min ssids_count 10) bus3 (List.replicate 10 scan_default_entry) 0
  let bus5 ← expect_byte 0xEE bus4
  .ok ((ssids_count, entries), bus5)

@[simp] theorem except_bind_ok {ε α β : Type} (a : α) (f : α → Except ε β) :
    (Except.ok a >>= f) = f a := rfl

/-- C1: for every command and parameter list, the byte count from START
through the last padding byte is a multiple of 4, and the padding is
exactly the `0x00` bytes appended after END to reach that multiple. -/
theorem send_command_aligned (cmd : Nat) (params : List SendParam) (use16 : Bool) :
    (send_command cmd params use16).length % 4 = 0 ∧
      send_command cmd params use16 =
        send_command_core cmd params use16
          ++ List.replicate (pad_len (send_command_core cmd params use16).length) 0 := by
  constructor
  · have h : (send_command cmd params use16).length =
        (send_command_core cmd params use16).length
          + pad_len (send_command_core cmd params use16).length := by
      simp [send_command]
    rw [h]
    unfold pad_len
    omega
  · rfl

@[simp] theorem except_bind_error {ε α β : Type} (e : ε) (f : α → Except ε β) :
    ((Except.error e : Except ε α) >>= f) = Except.error e := rfl

theorem read_bytes_split (k : Nat) (bus : List Nat) (h : k ≤ bus.length) :
    read_bytes k bus = .ok (bus.take k, bus.drop k) := by
  induction k generalizing bus with
  | zero => simp [read_bytes]
  | succ n ih =>
    cases bus with
    | nil => simp at h
    | cons b rest =>
      have hn : n ≤ rest.length := by simpa using h
      simp [read_bytes, transfer_byte, ih rest hn]

theorem read_len_header (use16 : Bool) (n : Nat) (rest : List Nat)
    (h : n < if use16 then 65536 else 256) :
    read_len use16 none (len_header use16 n ++ rest) = .ok (n, rest) := by
  cases use16 with
  | false =>
    simp only [Bool.false_eq_true, if_false] at h
    simp [read_len, len_header, transfer_byte, Nat.mod_eq_of_lt h]
  | true =>
    simp only [if_true] at h
    simp [read_len, len_header, u16_be, transfer_byte, Nat.mod_eq_of_lt h]
    omega

/-- C4: a variable-length `Buffer` slot whose incoming size `n` exceeds
the capacity `cap` stores exactly the first `cap` payload bytes,
reports length `cap`, and still consumes all `n` payload bytes: the
remaining bus is exactly what follows the payload, both for the slot
handler itself and through a whole `receive_response` frame, whose
trailing END byte is reached exactly after the `n` payload bytes. -/
theorem buffer_slot_truncate_drains :
    (∀ (use16 : Bool) (cap n : Nat) (payload rest : List Nat),
        cap < n → payload.length = n → n < (if use16 then 65536 else 256) →
        handle_recv_param use16 (.buffer cap) (len_header use16 n ++ (payload ++ rest))
          = .ok (.bufferVal (payload.take cap) cap, rest)) ∧
    (∀ (cmd cap n : Nat) (payload : List Nat),
        cap < n → payload.length = n → n < 256 →
        receive_response cmd false [.buffer cap]
            ([0xE0, 128 + cmd % 128, 1, n] ++ payload ++ [0xEE])
          = .ok ([.bufferVal (payload.take cap) cap], [])) := by
  have hslot : ∀ (use16 : Bool) (cap n : Nat) (payload rest : List Nat),
      cap < n → payload.length = n → n < (if use16 then 65536 else 256) →
      handle_recv_param use16 (.buffer cap) (len_header use16 n ++ (payload ++ rest))
        = .ok (.bufferVal (payload.take cap) cap, rest) := by
    intro use16 cap n payload rest hcap hlen hn
    have hmin : min n cap = cap := Nat.min_eq_right (Nat.le_of_lt hcap)
    have hcap_le : cap ≤ payload.length := by omega
    have h1 : read_bytes (min n cap) (payload ++ rest)
        = .ok (payload.take cap, payload.drop cap ++ rest) := by
      rw [hmin, read_bytes_split cap (payload ++ rest) (by simp; omega)]
      rw [List.take_append_of_le_length hcap_le, List.drop_append_of_le_length hcap_le]
    have hdroplen : (payload.drop cap).length = n - cap := by simp [hlen]
    have h2 : read_bytes (n - min n cap) (payload.drop cap ++ rest)
        = .ok (payload.drop cap, rest) := by
      rw [hmin, read_bytes_split (n - cap) (payload.drop cap ++ rest)
        (by simp only [List.length_append, List.length_drop]; omega)]
      rw [← hdroplen, List.take_left, List.drop_left]
    simp [handle_recv_param, read_len_header use16 n (payload ++ rest) hn, h1, h2]
    all_goals omega
  refine ⟨hslot, ?_⟩
  intro cmd cap n payload hcap hlen hn
  have hbus : (n : Nat) :: (payload ++ [0xEE])
      = len_header false n ++ (payload ++ [0xEE]) := by
    simp [len_header, Nat.mod_eq_of_lt hn]
  have hs := hslot false cap n payload [0xEE] hcap hlen (by simpa using hn)
  simp [receive_response, wait_for_response_start, expect_byte, transfer_byte,
    recv_params, hbus, hs]

theorem buffer_slot_truncate_drains_witness :
    handle_recv_param false (.buffer 2) [5, 1, 2, 3, 4, 5, 9]
      = .ok (.bufferVal [1, 2] 2, [9]) ∧
    receive_response 0x45 false [.buffer 2] [0xE0, 0xC5, 1, 5, 1, 2, 3, 4, 5, 0xEE]
      = .ok ([.bufferVal [1, 2] 2], []) := by
  constructor
  · have h := buffer_slot_truncate_drains.1 false 2 5 [1, 2, 3, 4, 5] [9]
      (by decide) (by decide) (by decide)
    simpa [len_header] using h
  · have h := buffer_slot_truncate_drains.2 0x45 2 5 [1, 2, 3, 4, 5]
      (by decide) (by decide) (by decide)
    simpa using h

theorem recv_params_ok_count_le (use16 : Bool) (count idx : Nat)
    (params : List RecvParam) (bus : List Nat) (r : List RecvVal × Nat × List Nat)
    (h : recv_params use16 count idx params bus = .ok r) :
    count ≤ idx + params.length := by
  induction params generalizing idx bus r with
  | nil =>
    by_cases hc : idx < count
    · simp [recv_params, hc] at h
    · omega
  | cons p rest ih =>
    by_cases he : idx = count
    · omega
    · cases hh : handle_recv_param use16 p bus with
      | error e => simp [recv_params, he, hh] at h
      | ok vb =>
        cases hr : recv_params use16 count (idx + 1) rest vb.2 with
        | error e => simp [recv_params, he, hh, hr] at h
        | ok r1 =>
          have := ih (idx + 1) vb.2 r1 hr
          simp only [List.length_cons]
          omega

/-- C6: when the chip reports fewer parameters than there are receive
slots, every remaining `OptionalByte` slot is skipped with its option
left `none`, the first remaining non-optional slot fails
`MissingParam`, the end-of-loop check fails `UnexpectedParam` with the
chip's count when parameters remain unconsumed, and a response whose
parameter count exceeds the number of slots can never parse
successfully. -/
theorem recv_params_missing_and_unexpected :
    (∀ (use16 : Bool) (count : Nat) (bus : List Nat) (opts : List RecvParam),
        (∀ x ∈ opts, x = RecvParam.optionalByte) →
        recv_params use16 count count opts bus
          = .ok (opts.map (fun _ => .optionalVal none), count, bus)) ∧
    (∀ (use16 : Bool) (count : Nat) (bus : List Nat)
        (opts : List RecvParam) (p : RecvParam) (rest : List RecvParam),
        (∀ x ∈ opts, x = RecvParam.optionalByte) → p ≠ RecvParam.optionalByte →
        recv_params use16 count count (opts ++ p :: rest) bus
          = .error (.missingParam count)) ∧
    (∀ (use16 : Bool) (count idx : Nat) (bus : List Nat),
        idx < count →
        recv_params use16 count idx [] bus = .error (.unexpectedParam count)) ∧
    (∀ (use16 : Bool) (count : Nat) (params : List RecvParam) (bus : List Nat)
        (r : List RecvVal × Nat × List Nat),
        params.length < count →
        recv_params use16 count 0 params bus ≠ .ok r) := by
  refine ⟨?_, ?_, ?_, ?_⟩
  · intro use16 count bus opts hopts
    induction opts with
    | nil => simp [recv_params]
    | cons p rest ih =>
      have hp : p = RecvParam.optionalByte := hopts p (by simp)
      subst hp
      have hrest := ih (fun x hx => hopts x (by simp [hx]))
      simp [recv_params, hrest]
  · intro use16 count bus opts p rest hopts hp
    induction opts with
    | nil =>
      cases p <;> simp_all [recv_params]
    | cons q qs ih =>
      have hq : q = RecvParam.optionalByte := hopts q (by simp)
      subst hq
      have := ih (fun x hx => hopts x (by simp [hx]))
      simp [recv_params, this]
  · intro use16 count idx bus hlt
    simp [recv_params, hlt]
  · intro use16 count params bus r hlt h
    have := recv_params_ok_count_le use16 count 0 params bus r h
    omega

theorem recv_params_missing_and_unexpected_witness :
    recv_params false 2 2 [.optionalByte, .optionalByte] [9]
      = .ok ([.optionalVal none, .optionalVal none], 2, [9]) ∧
    recv_params false 2 2 [.optionalByte, .byte] [9]
      = .error (.missingParam 2) ∧
    recv_params false 3 1 [] [9] = .error (.unexpectedParam 3) ∧
    recv_params false 2 0 [RecvParam.byte] [1, 7] ≠
      .ok ([.byteVal 7], 1, []) := by
  refine ⟨?_, ?_, ?_, ?_⟩
  · have h := recv_params_missing_and_unexpected.1 false 2 [9]
      [.optionalByte, .optionalByte] (by intro x hx; simpa using hx)
    simpa using h
  · have h := recv_params_missing_and_unexpected.2.1 false 2 [9]
      [.optionalByte] .byte [] (by intro x hx; simpa using hx) (by decide)
    simpa using h
  · exact recv_params_missing_and_unexpected.2.2.1 false 3 1 [9] (by decide)
  · exact recv_params_missing_and_unexpected.2.2.2 false 2 [RecvParam.byte]
      [1, 7] ([.byteVal 7], 1, []) (by decide)

/-- C8 counterexample: on the chip reply carrying `31 2E 37 2E 34 00`
(length 6), `get_firmware_version` returns filled length 6 — not 5 —
and the sixth byte of the returned buffer is the terminating null, so
the (buffer, filled-length) result does not denote the 5 bytes
"1.7.4" without the null. -/
theorem get_firmware_version_cex :
    get_firmware_version firmware_reply
      = .ok ([0x31, 0x2E, 0x37, 0x2E, 0x34, 0x00, 0, 0, 0, 0], 6) ∧
    ([0x31, 0x2E, 0x37, 0x2E, 0x34, 0x00, 0, 0, 0, 0] : List Nat).take 6
      ≠ [0x31, 0x2E, 0x37, 0x2E, 0x34] ∧
    (6 : Nat) ≠ 5 := by
  refine ⟨?_, by decide, by decide⟩
  rfl

/-- C8 amended: `get_firmware_version` returns the raw C string — the
filled length is 6 and counts the terminating null (byte 6 - 1 of the
buffer is `0x00`); the version string "1.7.4" is what remains after the
caller drops that final null, as the repository's examples do with
`&buf[..len - 1]`. -/
theorem get_firmware_version_keeps_null :
    get_firmware_version firmware_reply
      = .ok ([0x31, 0x2E, 0x37, 0x2E, 0x34, 0x00, 0, 0, 0, 0], 6) ∧
    ([0x31, 0x2E, 0x37, 0x2E, 0x34, 0x00, 0, 0, 0, 0] : List Nat).take (6 - 1)
      = [0x31, 0x2E, 0x37, 0x2E, 0x34] ∧
    ([0x31, 0x2E, 0x37, 0x2E, 0x34, 0x00, 0, 0, 0, 0] : List Nat).get? (6 - 1)
      = some 0 := by
  refine ⟨?_, by decide, by decide⟩
  rfl

/-- C9 counterexample: a timer error other than `WouldBlock` makes
`TimeoutIter::next` panic — it does not end iteration gracefully. -/
theorem timeout_iter_error_cex :
    timeout_iter_next .err = .panicked ∧ IterStep.panicked ≠ IterStep.finished := by
  decide

/-- C9 amended: a `WouldBlock` from the timer yields another loop
iteration, `Ok` ends the iterator, and any other timer error hits the
`panic!()` arm — the loop stops only because the program crashes. -/
theorem timeout_iter_error_panics :
    timeout_iter_next .wouldBlock = .yield ∧
    timeout_iter_next .ok = .finished ∧
    timeout_iter_next .err = .panicked := by
  decide

/-- C5 counterexample: for the word 256 (≠ 255), `server_select` does
not construct a connected socket over 256 — the `u16` to `u8`
conversion `socket_num.try_into().unwrap()` panics. -/
theorem server_select_cex :
    server_select 256 = .panicked ∧
    server_select 256 ≠ .connected 256 := by
  decide

/-- C5 amended: of the 16-bit words the chip can send, 255 maps to
`WouldBlock`, any other word that fits in a socket byte (below 255)
yields a connected-socket wrapper over that handle, and words above
255 panic in the host's `u16` to `u8` conversion. -/
theorem server_select_cases (word : Nat) (h : word < 65536) :
    (word = 255 → server_select word = .wouldBlock) ∧
    (word < 255 → server_select word = .connected word) ∧
    (255 < word → server_select word = .panicked) := by
  refine ⟨fun h1 => ?_, fun h1 => ?_, fun h1 => ?_⟩
  · simp [server_select, h1]
  · have h2 : word ≠ 255 := by omega
    have h3 : word < 256 := by omega
    simp [server_select, h2, h3]
  · have h2 : word ≠ 255 := by omega
    by_cases h3 : word < 256
    · omega
    · simp [server_select, h2, h3]

theorem server_select_cases_witness :
    server_select 300 = .panicked ∧ server_select 7 = .connected 7 :=
  ⟨(server_select_cases 300 (by decide)).2.2 (by decide),
   (server_select_cases 7 (by decide)).2.1 (by decide)⟩

/-- C2 counterexample: with 1 byte available and a 65536-byte buffer,
`socket_read` requests `min(available, buf.len() as u16) = min 1 0 = 0`
bytes from `GetDatabufTcp`, not the `min(available, buf.len()) = 1`
bytes the claim states. -/
theorem socket_read_cex :
    (socket_read ⟨1, 4, []⟩ 0 65536).2 = [.availableData 0, .getDatabuf 0 0] ∧
    (0 : Nat) ≠ min 1 65536 := by
  refine ⟨?_, by decide⟩
  decide

/-- C2 amended: `socket_read` first issues `AvailableDataTcp`; when the
available count is 0 it issues `GetClientStateTcp` and returns `Ok 0`
on `Closed` (status byte 0) and `WouldBlock` otherwise; when it is
nonzero it issues `GetDatabufTcp` requesting
`min(available, buf.len() as u16)` bytes — the buffer length truncated
to 16 bits — and returns the count of bytes copied into the buffer,
`min(incoming, buf.len())`. -/
theorem socket_read_semantics (env : ReadEnv) (sock bufLen : Nat) :
    (env.available = 0 → env.status = 0 →
      socket_read env sock bufLen
        = (.ok 0, [.availableData sock, .getClientState sock])) ∧
    (env.available = 0 → env.status ≠ 0 →
      socket_read env sock bufLen
        = (.wouldBlock, [.availableData sock, .getClientState sock])) ∧
    (env.available ≠ 0 →
      socket_read env sock bufLen
        = (.ok (min env.data.length bufLen),
           [.availableData sock,
            .getDatabuf sock (min env.available (bufLen % 65536))])) := by
  refine ⟨fun h1 h2 => ?_, fun h1 h2 => ?_, fun h1 => ?_⟩
  · simp [socket_read, h1, h2]
  · simp [socket_read, h1, h2]
  · simp [socket_read, h1]

theorem socket_read_semantics_witness :
    socket_read ⟨0, 0, []⟩ 3 16 = (.ok 0, [.availableData 3, .getClientState 3]) ∧
    socket_read ⟨0, 4, []⟩ 3 16 = (.wouldBlock, [.availableData 3, .getClientState 3]) ∧
    socket_read ⟨5, 4, [1, 2, 3]⟩ 3 2
      = (.ok 2, [.availableData 3, .getDatabuf 3 2]) := by
  refine ⟨?_, ?_, ?_⟩
  · have h := (socket_read_semantics ⟨0, 0, []⟩ 3 16).1 rfl rfl
    simpa using h
  · have h := (socket_read_semantics ⟨0, 4, []⟩ 3 16).2.1 rfl (by decide)
    simpa using h
  · have h := (socket_read_semantics ⟨5, 4, [1, 2, 3]⟩ 3 2).2.2 (by decide)
    simpa using h

theorem write_chunks_fuel_mem : ∀ (fuel n c : Nat),
    c ∈ write_chunks_fuel fuel n → 0 < c ∧ c ≤ MAX_WRITE_BYTES := by
  intro fuel
  induction fuel with
  | zero => intro n c h; simp [write_chunks_fuel] at h
  | succ f ih =>
    intro n c h
    by_cases hn : n = 0
    · simp [write_chunks_fuel, hn] at h
    · simp only [write_chunks_fuel, hn, if_false, List.mem_cons] at h
      rcases h with h | h
      · subst h
        refine ⟨?_, Nat.min_le_right _ _⟩
        simp [MAX_WRITE_BYTES]
        omega
      · exact ih _ _ h

theorem write_chunks_fuel_sum : ∀ (fuel n : Nat), n ≤ fuel →
    (write_chunks_fuel fuel n).sum = n := by
  intro fuel
  induction fuel with
  | zero =>
    intro n h
    have hn : n = 0 := by omega
    subst hn
    simp [write_chunks_fuel]
  | succ f ih =>
    intro n h
    by_cases hn : n = 0
    · simp [write_chunks_fuel, hn]
    · have hle : min n MAX_WRITE_BYTES ≤ n := Nat.min_le_left _ _
      have hpos : 0 < min n MAX_WRITE_BYTES := by
        simp [MAX_WRITE_BYTES]
        omega
      have hrec := ih (n - min n MAX_WRITE_BYTES) (by omega)
      simp [write_chunks_fuel, hn, hrec]

theorem socket_write_loop_full : ∀ (fuel rfuel n written : Nat) (frames : List Nat),
    n + 1 ≤ fuel → n ≤ rfuel →
    socket_write_loop fuel (write_chunks_fuel rfuel n) n n written frames
      = some (frames.reverse ++ write_chunks_fuel rfuel n, written + n) := by
  intro fuel
  induction fuel with
  | zero => intro rfuel n written frames h _; exact absurd h (by omega)
  | succ f ih =>
    intro rfuel n written frames hf hr
    by_cases hn : n = 0
    · subst hn
      cases rfuel <;> simp [write_chunks_fuel, socket_write_loop]
    · cases rfuel with
      | zero => exact absurd hr (by omega)
      | succ rf =>
        have hpos : 0 < min n MAX_WRITE_BYTES := by
          simp [MAX_WRITE_BYTES]
          omega
        have hle : min n MAX_WRITE_BYTES ≤ n := Nat.min_le_left _ _
        have hstep : write_chunks_fuel (rf + 1) n
            = min n MAX_WRITE_BYTES
                :: write_chunks_fuel rf (n - min n MAX_WRITE_BYTES) := by
          simp [write_chunks_fuel, hn]
        have hrec := ih rf (n - min n MAX_WRITE_BYTES)
          (written + min n MAX_WRITE_BYTES) (min n MAX_WRITE_BYTES :: frames)
          (by omega) (by omega)
        have hunfold : socket_write_loop (f + 1)
            (min n MAX_WRITE_BYTES
              :: write_chunks_fuel rf (n - min n MAX_WRITE_BYTES))
            n n written frames
          = socket_write_loop f (write_chunks_fuel rf (n - min n MAX_WRITE_BYTES))
              (n - min n MAX_WRITE_BYTES) (n - min n MAX_WRITE_BYTES)
              (written + min n MAX_WRITE_BYTES)
              (min n MAX_WRITE_BYTES :: frames) := by
          simp [socket_write_loop, hn]
        rw [hstep, hunfold, hrec]
        have harith : written + min n MAX_WRITE_BYTES + (n - min n MAX_WRITE_BYTES)
            = written + n := by omega
        simp [harith, List.append_assoc]

/-- C3: when the chip accepts every chunk in full, `socket_write` on an
`n`-byte input issues one `SendDataTcp` frame per chunk of the ≤ 4000
byte chunking of the input, returns the sum of the per-chunk counts
(which is `n`), every chunk is nonempty and at most `MAX_WRITE_BYTES`;
for 9,000 bytes the chunking is exactly `[4000, 4000, 1000]` and the
returned count is 9,000. -/
theorem socket_write_chunking :
    (∀ n : Nat, socket_write (write_chunks n) n = some (write_chunks n, n)) ∧
    (∀ n c : Nat, c ∈ write_chunks n → 0 < c ∧ c ≤ MAX_WRITE_BYTES) ∧
    (∀ n : Nat, (write_chunks n).sum = n) ∧
    write_chunks 9000 = [4000, 4000, 1000] ∧
    socket_write (write_chunks 9000) 9000 = some ([4000, 4000, 1000], 9000) := by
  have h1 : ∀ n : Nat, socket_write (write_chunks n) n = some (write_chunks n, n) := by
    intro n
    have h := socket_write_loop_full (n + 1) n n 0 [] (le_refl _) (le_refl _)
    simpa [socket_write, write_chunks] using h
  have h9 : write_chunks 9000 = [4000, 4000, 1000] := by decide
  refine ⟨h1, ?_, ?_, h9, ?_⟩
  · intro n c h
    exact write_chunks_fuel_mem n n c h
  · intro n
    exact write_chunks_fuel_sum n n (le_refl _)
  · have := h1 9000
    rwa [h9] at this

theorem socket_write_chunking_witness :
    4000 ∈ write_chunks 9000 ∧ 0 < 4000 ∧ 4000 ≤ MAX_WRITE_BYTES :=
  ⟨by decide, socket_write_chunking.2.1 9000 4000 (by decide)⟩

theorem socket_open_poll_aux_first : ∀ (j k i last : Nat) (statuses : Nat → Nat),
    j < k → statuses (i + j) = 4 → (∀ m, m < j → statuses (i + m) ≠ 4) →
    socket_open_poll_aux k statuses i last = .established (i + j + 1) := by
  intro j
  induction j with
  | zero =>
    intro k i last statuses hk h4 _
    cases k with
    | zero => exact absurd hk (by omega)
    | succ k1 =>
      have h4i : statuses i = 4 := by simpa using h4
      simp [socket_open_poll_aux, h4i]
  | succ j ih =>
    intro k i last statuses hk h4 hmin
    cases k with
    | zero => exact absurd hk (by omega)
    | succ k1 =>
      have h0 : statuses i ≠ 4 := by simpa using hmin 0 (by omega)
      have hidx : i + 1 + j = i + (j + 1) := by omega
      have hrec := ih k1 (i + 1) (statuses i) statuses (by omega)
        (by rw [hidx]; exact h4)
        (by
          intro m hm
          have hm2 : i + 1 + m = i + (m + 1) := by omega
          rw [hm2]
          exact hmin (m + 1) (by omega))
      simp only [socket_open_poll_aux, h0, if_false]
      rw [hrec]
      congr 1
      omega

/-- C7 counterexample: the frame `send_command` emits for
`StartClientTcp` to 10.0.0.1:80 on socket 3 is not the spec's 18-byte
string with two trailing padding zeros — that string is not even
4-byte aligned. -/
theorem start_client_tcp_cex :
    send_command 0x2D [.bytes [10, 0, 0, 1], .word 80, .byte 3, .byte 0] false
      ≠ [0xE0, 0x2D, 0x04, 0x04, 0x0A, 0x00, 0x00, 0x01,
         0x02, 0x00, 0x50, 0x01, 0x03, 0x01, 0x00, 0xEE, 0x00, 0x00] ∧
    (18 : Nat) % 4 ≠ 0 := by
  refine ⟨?_, by decide⟩
  decide

/-- C7 amended: the `StartClientTcp` frame for 10.0.0.1:80 on socket 3
is the 16-byte sequence `E0 2D 04 04 0A 00 00 01 02 00 50 01 03 01 00
EE` — already a multiple of 4, so no padding is emitted; the reply
`E0 AD 01 01 01 EE` parses into the optional result byte 1; and the
connect poll returns `Established` right after the first
`GetClientStateTcp` read yielding status 4. -/
theorem start_client_tcp_scenario :
    send_command 0x2D [.bytes [10, 0, 0, 1], .word 80, .byte 3, .byte 0] false
      = [0xE0, 0x2D, 0x04, 0x04, 0x0A, 0x00, 0x00, 0x01,
         0x02, 0x00, 0x50, 0x01, 0x03, 0x01, 0x00, 0xEE] ∧
    receive_response 0x2D false [.optionalByte] [0xE0, 0xAD, 0x01, 0x01, 0x01, 0xEE]
      = .ok ([.optionalVal (some 1)], []) ∧
    (∀ (statuses : Nat → Nat) (j : Nat), j < 300 → statuses j = 4 →
      (∀ m, m < j → statuses m ≠ 4) →
      socket_open_poll statuses = .established (j + 1)) := by
  refine ⟨by decide, by rfl, ?_⟩
  intro statuses j hj h4 hmin
  have h := socket_open_poll_aux_first j 300 0 255 statuses hj
    (by simpa using h4) (by intro m hm; simpa using hmin m hm)
  simpa [socket_open_poll] using h

theorem start_client_tcp_scenario_witness :
    socket_open_poll (fun _ => 4) = .established 1 :=
  start_client_tcp_scenario.2.2 (fun _ => 4) 0 (by decide) rfl
    (fun m hm => absurd hm (Nat.not_lt_zero m))

theorem wifi_scan_entries_ten :
    wifi_scan_entries 10 ((List.replicate 10 ([1, 171] : List Nat)).flatten ++ [0xEE])
        (List.replicate 10 scan_default_entry) 0
      = .ok (List.replicate 10 ((1 : Nat), (171 : Nat) :: List.replicate 254 0),
          [0xEE]) := by
  rfl

/-- C10: `wifi_scan` stores the chip's raw network count even when it
exceeds the 10-slot capacity — on a trace reporting `n > 10` networks
with ten one-byte SSIDs on the bus, the result carries `ssids_count =
n` while only the 10 array entries exist and are filled — and each
SSID read consumes exactly the reported `ssid_len` bytes from the bus
(storing at most the 255-byte buffer's worth). -/
theorem wifi_scan_raw_count :
    (∀ n : Nat, 10 < n → n < 256 →
      wifi_scan ([0xE0, 0xA7, n]
          ++ ((List.replicate 10 ([1, 171] : List Nat)).flatten ++ [0xEE]))
        = .ok ((n, List.replicate 10 ((1 : Nat), (171 : Nat) :: List.replicate 254 0)),
            [])) ∧
    (∀ (ssid_len : Nat) (payload rest : List Nat),
      payload.length = ssid_len → ssid_len < 256 →
      read_ssid_entry (ssid_len :: (payload ++ rest))
        = .ok ((ssid_len, payload ++ List.replicate (255 - ssid_len) 0), rest)) := by
  constructor
  · intro n h10 h256
    have hmin : min n 10 = 10 := by omega
    have hstep : wifi_scan ([0xE0, 0xA7, n]
        ++ ((List.replicate 10 ([1, 171] : List Nat)).flatten ++ [0xEE]))
      = (wifi_scan_entries (min n 10)
          ((List.replicate 10 ([1, 171] : List Nat)).flatten ++ [0xEE])
          (List.replicate 10 scan_default_entry) 0 >>= fun p =>
            expect_byte 0xEE p.2 >>= fun bus5 => Except.ok ((n, p.1), bus5)) := rfl
    rw [hstep, hmin, wifi_scan_entries_ten]
    rfl
  · intro L payload rest hlen h256
    have hminL : min L 255 = L := Nat.min_eq_left (by omega)
    have h1 : read_bytes L (payload ++ rest) = .ok (payload, rest) := by
      rw [← hlen, read_bytes_split payload.length (payload ++ rest) (by simp),
        List.take_left, List.drop_left]
    have h2 : read_bytes 0 rest = .ok ([], rest) := rfl
    simp [read_ssid_entry, transfer_byte, hminL, h1, h2]

theorem wifi_scan_raw_count_witness :
    wifi_scan ([0xE0, 0xA7, 12]
        ++ ((List.replicate 10 ([1, 171] : List Nat)).flatten ++ [0xEE]))
      = .ok ((12, List.replicate 10 ((1 : Nat), (171 : Nat) :: List.replicate 254 0)),
          []) :=
  wifi_scan_raw_count.1 12 (by decide) (by decide)

end WifiNina
